import Mathlib

/-!
# Verification of the goscrape pagination/extraction engine

A shallow embedding, in Lean 4, of the goscrape scraping library:

* the extractor variants of `extract/extractors.go` (`Const`, `Regex`, `Attr`)
  and of the legacy root-package `extractors.go`
  (`RegexExtractor`, `AttrExtractor`);
* the pagination/extraction engine of `scrape.go`
  (`New`, `Scraper.Scrape`, `ScrapeResults.First`);
* the PhantomJS quiescence-detection driver script (`fetchScript`),
  modelled as an event-driven timed state machine.

Go conventions are embedded as follows: a Go `(T, error)` pair of returns
becomes `Except GoError T` (or a literal pair where the code can return
partial values together with an error); Go `nil` results standing for the
"omit this piece" signal become `Option`; a run-time panic (out-of-range
slice index) becomes an outer `Option` layer, `none` marking the panic;
external collaborators (the CSS engine, the regexp library, the HTTP
transport, the HTML parser) are parameters supplied as plain functions.
-/

/-- An extracted value, as produced by the extractors and stored (via Go's
`interface{}`) in a block's result map: a bare string, a list of strings,
or an integer (the `Count` extractor). -/
inductive Value where
  | str : String → Value
  | list : List String → Value
  | num : Int → Value
deriving DecidableEq, Repr

/-- Go `error` values produced by the library.  Each `errors.New` /
`fmt.Errorf` site in the source gets its own constructor, so that distinct
error identities stay distinct; errors coming from external collaborators
(goquery HTML serialization, the HTTP transport, the parser) are wrapped
in `external`. -/
inductive GoError where
  | noRegex
  | noSubexpressions
  | tooManySubexpressions (n : Nat)
  | invalidNumSubexpressions (n : Nat)
  | noAttribute
  | noURLProvided
  | noPieces
  | noName (i : Nat)
  | duplicateName (i : Nat)
  | noSelector (i : Nat)
  | external (msg : String)
deriving DecidableEq, Repr

instance {ε α : Type} [DecidableEq ε] [DecidableEq α] : DecidableEq (Except ε α) := fun x y =>
  match x, y with
  | .ok a, .ok b =>
    if h : a = b then .isTrue (by rw [h]) else .isFalse (by intro hc; cases hc; exact h rfl)
  | .error a, .error b =>
    if h : a = b then .isTrue (by rw [h]) else .isFalse (by intro hc; cases hc; exact h rfl)
  | .ok _, .error _ => .isFalse (by intro hc; cases hc)
  | .error _, .ok _ => .isFalse (by intro hc; cases hc)

/-- One DOM element of a goquery selection, exposing exactly the capabilities
the extractors use: its text content, its inner-HTML serialization (which,
like goquery's `Html()`, may fail), and its attribute list. -/
structure Element where
  text : String
  html : Except String String
  attrs : List (String × String)
deriving DecidableEq, Repr

/-- A goquery `*Selection`: an ordered list of matched elements. -/
abbrev Selection := List Element

/-- The part of Go's `regexp.Regexp` the extractors consume: the number of
capturing groups (`NumSubexp`) and `FindAllStringSubmatch` (with limit -1),
which yields, for each match, the list of submatches (entry 0 is the whole
match, entry `i` the `i`-th group).  An empty result list stands for Go's
`nil` no-match return. -/
structure Regexp where
  numSubexp : Nat
  findAll : String → List (List String)

/-- A block's result map (Go `map[string]interface{}`), as an association
list with map-update semantics. -/
abbrev BlockMap := List (String × Value)

/-- Lookup in a block result map. -/
def mapLookup (k : String) : BlockMap → Option Value
  | [] => none
  | (k', v) :: rest => if k' = k then some v else mapLookup k rest

/-- Go map assignment `m[k] = v`: replace the binding if the key is present,
append it otherwise. -/
def mapInsert (m : BlockMap) (k : String) (v : Value) : BlockMap :=
  match m with
  | [] => [(k, v)]
  | (k', v') :: rest => if k' = k then (k, v) :: rest else (k', v') :: mapInsert rest k v

/-- Whether an `Except` is a success (`err == nil` in Go). -/
def isOkE {ε α : Type} : Except ε α → Bool
  | .ok _ => true
  | .error _ => false

namespace Extract

/-! ## The `extract` package extractors (`extract/extractors.go`) -/

/-- `extract.Const`: a `PieceExtractor` that returns a constant value.
`val = none` embeds a Go `nil` interface value in the `Val` field. -/
structure Const where
  val : Option Value

/-- `Const.Extract`: `return e.Val, nil`. -/
def Const.extract (e : Const) (_sel : Selection) : Except GoError (Option Value) :=
  .ok e.val

/-- `extract.Regex` configuration (`extract/extractors.go`).  `regex = none`
embeds a `nil` `*regexp.Regexp`.  `subexpression` is Go's zero-defaulted
`Subexpression int` field (non-negative in every supported configuration). -/
structure Regex where
  regex : Option Regexp
  subexpression : Nat
  onlyText : Bool
  alwaysReturnList : Bool
  omitIfEmpty : Bool

/-- The subexpression-designation step of `Regex.Extract` (the
`if e.Subexpression == 0` block): with no explicit index, a pattern with
exactly one group defaults to that group; more than one group is a
configuration error. -/
def Regex.resolveSubexp (e : Regex) (re : Regexp) : Except GoError Nat :=
  if e.subexpression = 0 then
    if re.numSubexp ≠ 1 then .error (.tooManySubexpressions re.numSubexp)
    else .ok 1
  else .ok e.subexpression

/-- The per-element collection loop shared by `Regex.Extract` (in both the
`extract` package and the legacy root package): for each element take its
text or inner HTML (an HTML serialization error breaks the loop and is
returned), run `FindAllStringSubmatch`, and collect submatch `subexp` of
every match whose submatch list is longer than one entry.  The index is
in range by the regexp library's contract (each submatch list has
`NumSubexp + 1` entries), so it is embedded with a default. -/
def regexCollect (re : Regexp) (subexp : Nat) (onlyText : Bool) :
    Selection → Except GoError (List String)
  | [] => .ok []
  | el :: rest =>
    match (if onlyText then Except.ok el.text else el.html.mapError GoError.external) with
    | .error e => .error e
    | .ok contents =>
      let here := (re.findAll contents).filterMap
        (fun sm => if sm.length > 1 then some (sm.getD subexp "") else none)
      match regexCollect re subexp onlyText rest with
      | .error e => .error e
      | .ok more => .ok (here ++ more)

/-- `extract.Regex.Extract` (`extract/extractors.go` lines 145-214). -/
def Regex.extract (e : Regex) (sel : Selection) : Except GoError (Option Value) :=
  match e.regex with
  | none => .error .noRegex
  | some re =>
    if re.numSubexp = 0 then .error .noSubexpressions
    else
      match e.resolveSubexp re with
      | .error err => .error err
      | .ok subexp =>
        match regexCollect re subexp e.onlyText sel with
        | .error err => .error err
        | .ok results =>
          if results.isEmpty && e.omitIfEmpty then .ok none
          else if results.length == 1 && !e.alwaysReturnList then
            .ok (some (.str (results.getD 0 "")))
          else .ok (some (.list results))

/-- `extract.Attr` configuration (`extract/extractors.go`). -/
structure Attr where
  attr : String
  alwaysReturnList : Bool
  omitIfEmpty : Bool

/-- The `sel.Each` collection loop of both attribute extractors: read the
named attribute of each element, skipping elements that lack it. -/
def collectAttrs (a : String) : Selection → List String
  | [] => []
  | el :: rest =>
    match el.attrs.lookup a with
    | some v => v :: collectAttrs a rest
    | none => collectAttrs a rest

/-- `extract.Attr.Extract` (`extract/extractors.go` lines 238-259). -/
def Attr.extract (e : Attr) (sel : Selection) : Except GoError (Option Value) :=
  if e.attr = "" then .error .noAttribute
  else
    let results := collectAttrs e.attr sel
    if results.isEmpty && e.omitIfEmpty then .ok none
    else if results.length == 1 && !e.alwaysReturnList then
      .ok (some (.str (results.getD 0 "")))
    else .ok (some (.list results))

end Extract

/-! ## The legacy root-package extractors (`extractors.go`) -/

/-- Legacy `RegexExtractor` configuration (`extractors.go` lines 81-102):
no `Subexpression` field; the pattern must have exactly one group. -/
structure RegexExtractor where
  regex : Option Regexp
  onlyText : Bool
  alwaysReturnList : Bool
  omitIfEmpty : Bool

/-- Legacy `RegexExtractor.Extract` (`extractors.go` lines 104-158).  The
outer `Option` models run-time panics: the single-match branch executes
`return results[1], nil` on a slice just checked to have length 1, an
out-of-range index, embedded as `none`. -/
def RegexExtractor.extract (e : RegexExtractor) (sel : Selection) :
    Option (Except GoError (Option Value)) :=
  match e.regex with
  | none => some (.error .noRegex)
  | some re =>
    if re.numSubexp ≠ 1 then some (.error (.invalidNumSubexpressions re.numSubexp))
    else
      match Extract.regexCollect re 1 e.onlyText sel with
      | .error err => some (.error err)
      | .ok results =>
        if results.isEmpty && e.omitIfEmpty then some (.ok none)
        else if results.length == 1 && !e.alwaysReturnList then
          match results.get? 1 with
          | none => none
          | some v => some (.ok (some (.str v)))
        else some (.ok (some (.list results)))

/-- Legacy `AttrExtractor` configuration (`extractors.go` lines 162-171):
no `AlwaysReturnList` field. -/
structure AttrExtractor where
  attr : String
  omitIfEmpty : Bool

/-- Legacy `AttrExtractor.Extract` (`extractors.go` lines 173-191): always
returns the collected list (no single-value collapsing). -/
def AttrExtractor.extract (e : AttrExtractor) (sel : Selection) :
    Except GoError (Option Value) :=
  if e.attr = "" then .error .noAttribute
  else
    let results := Extract.collectAttrs e.attr sel
    if results.isEmpty && e.omitIfEmpty then .ok none
    else .ok (some (.list results))

/-! ## The pagination/extraction engine (`scrape.go`) -/

/-- A `Piece` (`scrape.go` lines 38-50): a named extraction rule.  The
`Extractor` interface value is embedded as its single `Extract` method. -/
structure Piece where
  name : String
  selector : String
  extractor : Selection → Except GoError (Option Value)

/-- The user-supplied `ScrapeConfig` (`scrape.go` lines 53-103), restricted
to the fields the engine loop consumes; `none` embeds a `nil` function
field. -/
structure ScrapeConfig where
  nextPage : Option (Selection → String)
  dividePage : Option (Selection → List Selection)
  pieces : List Piece

/-- A validated configuration with the `nil` defaults filled in by `New`. -/
structure Config where
  nextPage : Selection → String
  dividePage : Selection → List Selection
  pieces : List Piece

/-- `DividePageBySelector` (`helpers.go` lines 23-33): every element matched
by the selector becomes its own single-element block, in document order.
The CSS engine itself is the external `find` capability. -/
def dividePageBySelector (find : Selection → String → Selection) (sel : String) :
    Selection → List Selection :=
  fun doc => (find doc sel).map (fun el => [el])

/-- The piece-validation loop of `New` (`scrape.go` lines 156-169): reject an
empty name, a name already seen, and an empty selector, in that order,
accumulating seen names.  `i` is the loop index used in the error values. -/
def validatePieces : List Piece → List String → Nat → Except GoError Unit
  | [], _, _ => .ok ()
  | p :: rest, seen, i =>
    if p.name = "" then .error (.noName i)
    else if p.name ∈ seen then .error (.duplicateName i)
    else if p.selector = "" then .error (.noSelector i)
    else validatePieces rest (p.name :: seen) (i + 1)

/-- `New` (`scrape.go` lines 150-211): validate the config, then clone it and
fill in the defaults (`NextPage` defaulting to "no more pages",
`DividePage` to `DividePageBySelector("body")`).  Cookie-jar creation,
which cannot fail for the fixed options the source passes, is elided. -/
def new (find : Selection → String → Selection) (c : ScrapeConfig) :
    Except GoError Config :=
  if c.pieces.length = 0 then .error .noPieces
  else
    match validatePieces c.pieces [] 0 with
    | .error e => .error e
    | .ok _ =>
      .ok
        { nextPage := match c.nextPage with
            | none => fun _ => ""
            | some f => f
          dividePage := match c.dividePage with
            | none => dividePageBySelector find "body"
            | some f => f
          pieces := c.pieces }

/-- `ScrapeResults` (`scrape.go` lines 120-129). -/
structure ScrapeResults where
  urls : List String
  results : List (List BlockMap)
deriving DecidableEq, Repr

/-- `ScrapeResults.First` (`scrape.go` lines 136-142): the outer `Option`
models the run-time panic of `r.Results[0]` on an empty `Results` slice;
the inner `Option` is the `nil` returned when the first page has no
blocks. -/
def ScrapeResults.first (r : ScrapeResults) : Option (Option BlockMap) :=
  match r.results with
  | [] => none
  | page :: _ =>
    match page with
    | [] => some none
    | b :: _ => some (some b)

/-- The external world a scrape runs against: the `Fetcher` (its `Prepare`
and `Fetch` methods), the HTML parser (`goquery.NewDocumentFromReader`),
and the CSS engine (`Selection.Find`). -/
structure World where
  prepare : Except GoError Unit
  fetch : String → Except GoError String
  parse : String → Except GoError Selection
  find : Selection → String → Selection

/-- Fetch one URL and parse it into a document, the two fallible steps at the
top of the scrape loop. -/
def fetchDoc (W : World) (u : String) : Except GoError Selection :=
  match W.fetch u with
  | .error e => .error e
  | .ok body => W.parse body

/-- The selector-narrowing step at the top of the piece loop (`scrape.go`
lines 252-255): narrow the block by the piece's selector, or use the block
itself when the selector is the literal `"."`. -/
def narrowSel (find : Selection → String → Selection) (block : Selection)
    (selector : String) : Selection :=
  if selector ≠ "." then find block selector else block

/-- The inner piece loop of `Scrape` (`scrape.go` lines 251-269), with the
accumulating `blockResults` map: narrow the block by the piece's selector
(`"."` meaning the block itself), run its extractor, abort on error, skip
the piece on the omission signal, store the value otherwise. -/
def processBlockGo (find : Selection → String → Selection) (block : Selection) :
    List Piece → BlockMap → Except GoError BlockMap
  | [], m => .ok m
  | p :: rest, m =>
    match p.extractor (narrowSel find block p.selector) with
    | .error e => .error e
    | .ok none => processBlockGo find block rest m
    | .ok (some v) => processBlockGo find block rest (mapInsert m p.name v)

/-- Process one block against the configured pieces, starting from the empty
result map as the source does. -/
def processBlock (find : Selection → String → Selection) (pieces : List Piece)
    (block : Selection) : Except GoError BlockMap :=
  processBlockGo find block pieces []

/-- The block loop of `Scrape` (`scrape.go` lines 247-273): process each
block of the divided page in order, aborting on the first error. -/
def processBlocks (find : Selection → String → Selection) (pieces : List Piece) :
    List Selection → Except GoError (List BlockMap)
  | [] => .ok []
  | b :: rest =>
    match processBlock find pieces b with
    | .error e => .error e
    | .ok m =>
      match processBlocks find pieces rest with
      | .error e => .error e
      | .ok ms => .ok (m :: ms)

/-- One page's extraction: divide the document into blocks and process them. -/
def processPage (W : World) (cfg : Config) (doc : Selection) :
    Except GoError (List BlockMap) :=
  processBlocks W.find cfg.pieces (cfg.dividePage doc)

/-- The `for len(url) > 0` loop of `Scrape` (`scrape.go` lines 231-280),
returning Go's `(*ScrapeResults, error)` pair of returns literally; every
error site in the source returns `(nil, err)`.  The loop has no intrinsic
termination measure, so it is run on explicit fuel; `none` means the fuel
ran out before the loop did. -/
def scrapeLoop (W : World) (cfg : Config) :
    Nat → String → ScrapeResults → Option (Option ScrapeResults × Option GoError)
  | fuel, url, acc =>
    if url = "" then some (some acc, none)
    else
      match fuel with
      | 0 => none
      | fuel' + 1 =>
        match W.fetch url with
        | .error e => some (none, some e)
        | .ok body =>
          match W.parse body with
          | .error e => some (none, some e)
          | .ok doc =>
            match processPage W cfg doc with
            | .error e => some (none, some e)
            | .ok pageResults =>
              scrapeLoop W cfg fuel' (cfg.nextPage doc)
                ⟨acc.urls ++ [url], acc.results ++ [pageResults]⟩

/-- `Scraper.Scrape` (`scrape.go` lines 220-284, with the `Fetcher.Prepare`
call of the fetcher-based variant in `part_002` lines 547-618): reject an
empty start URL, prepare the fetcher, then run the page loop starting from
empty results. -/
def scrape (W : World) (cfg : Config) (fuel : Nat) (url : String) :
    Option (Option ScrapeResults × Option GoError) :=
  if url = "" then some (none, some .noURLProvided)
  else
    match W.prepare with
    | .error e => some (none, some e)
    | .ok _ => scrapeLoop W cfg fuel url ⟨[], []⟩

/-- A terminated pagination chain: starting from `u`, each visited page has a
non-empty URL, fetches and parses to the recorded document, and hands the
next recorded URL to `NextPage`, which returns the empty string on the
last document. -/
def okChain (W : World) (cfg : Config) : String → List (String × Selection) → Prop
  | u, [] => u = ""
  | u, (v, d) :: rest =>
    u = v ∧ v ≠ "" ∧ fetchDoc W v = .ok d ∧ okChain W cfg (cfg.nextPage d) rest

/-- A successfully processed prefix of a pagination chain, ending at the URL
`u'` that the scrape visits next: every page in the prefix fetches,
parses, and extracts without error. -/
def okUpto (W : World) (cfg : Config) :
    String → List (String × Selection) → String → Prop
  | u, [], u' => u = u'
  | u, (v, d) :: rest, u' =>
    u = v ∧ v ≠ "" ∧ fetchDoc W v = .ok d ∧
      isOkE (processPage W cfg d) = true ∧ okUpto W cfg (cfg.nextPage d) rest u'

/-- Extraction over a list of page documents, mirroring the per-page
`processPage` calls the loop makes, stopping at the first error. -/
def pagesResults (W : World) (cfg : Config) : List Selection → Except GoError (List (List BlockMap))
  | [] => .ok []
  | d :: ds =>
    match processPage W cfg d with
    | .error e => .error e
    | .ok r =>
      match pagesResults W cfg ds with
      | .error e => .error e
      | .ok rs => .ok (r :: rs)

/-! ## The PhantomJS quiescence driver (`fetchScript`)

The driver script runs inside a single-threaded, event-driven runtime.  We
embed its handlers (`onResourceRequested`, `onResourceReceived`, the
`page.open` callback, and the three `setTimeout` callbacks) as a step
function over an explicit state, and the runtime's scheduling as a validity
condition on timestamped event traces: timestamps never decrease, no event
is delivered after the process has exited, a pending timer fires exactly at
its expiry instant, and no event is delivered later than any armed timer's
expiry (timers fire on time).  Events carrying equal timestamps model
callbacks the runtime processes at the same instant. -/

/-- `resourceWait`: the debounce window (milliseconds). -/
def resourceWait : Nat := 300

/-- `maxRenderWait`: the hard render deadline (milliseconds). -/
def maxRenderWait : Nat := 10000

/-- The events a fetch session can observe: the `page.open` callback with a
success or failure status, a resource request, a completed (end-stage)
resource response, and the firing of the three timers (`renderTimeout`,
`forcedRenderTimeout`, and the zero-delay exit timer that
`phantomExit` schedules). -/
inductive PEvent where
  | openSuccess
  | openFail
  | request
  | response
  | debounceFire
  | deadlineFire
  | exitFire
deriving DecidableEq, Repr

/-- The script's mutable state: the in-flight counter `count`, the expiry
instants of the armed timers (`none` = not armed), whether the
`page.open` callback has been delivered, the number of JSON objects
written to standard output, whether navigation failed, and whether
`phantom.exit` has run. -/
structure PhantomState where
  count : Int
  renderTimeout : Option Nat
  forcedTimeout : Option Nat
  exitTimeout : Option Nat
  opened : Bool
  emitted : Nat
  navFailed : Bool
  exited : Bool
deriving DecidableEq, Repr

/-- The state at script start (`count = 0`, no timers armed). -/
def initState : PhantomState :=
  { count := 0, renderTimeout := none, forcedTimeout := none, exitTimeout := none
    opened := false, emitted := 0, navFailed := false, exited := false }

/-- `doRender` at instant `t`: serialize the page, write one JSON object to
standard output, and call `phantomExit`, which schedules `phantom.exit`
via `setTimeout(..., 0)` — i.e. arms the exit timer for instant `t`.
Note that `doRender` does not clear the other render timer. -/
def doRender (t : Nat) (s : PhantomState) : PhantomState :=
  { s with emitted := s.emitted + 1, exitTimeout := some t }

/-- One handler invocation at instant `t` (translated from `fetchScript`):

* `page.open` success arms the hard deadline for `t + maxRenderWait`;
* `page.open` failure calls `phantomExit(1)` — exit armed, no JSON;
* `onResourceRequested` increments `count` and clears the debounce timer;
* an end-stage `onResourceReceived` decrements `count` and, when the
  counter reaches zero, arms the debounce timer for `t + resourceWait`;
* a firing debounce or deadline timer is spent and runs `doRender`;
* the firing exit timer ends the process. -/
def pstep (t : Nat) (s : PhantomState) : PEvent → PhantomState
  | .openSuccess => { s with opened := true, forcedTimeout := some (t + maxRenderWait) }
  | .openFail => { s with opened := true, navFailed := true, exitTimeout := some t }
  | .request => { s with count := s.count + 1, renderTimeout := none }
  | .response =>
    if s.count - 1 = 0 then
      { s with count := s.count - 1, renderTimeout := some (t + resourceWait) }
    else { s with count := s.count - 1 }
  | .debounceFire => doRender t { s with renderTimeout := none }
  | .deadlineFire => doRender t { s with forcedTimeout := none }
  | .exitFire => { s with exitTimeout := none, exited := true }

/-- Whether instant `t` is no later than an (optional) armed timer's expiry. -/
def timerOK (timer : Option Nat) (t : Nat) : Bool :=
  match timer with
  | none => true
  | some x => t ≤ x

/-- Whether event `e` can be delivered at instant `t` in state `s`: the
process is still running; no armed timer has already expired (timers fire
on time); a timer-fire event needs its timer armed with expiry exactly
`t`; the `page.open` callback is delivered once; an end-stage response
needs an outstanding request. -/
def legalB (s : PhantomState) (t : Nat) (e : PEvent) : Bool :=
  !s.exited &&
  timerOK s.renderTimeout t && timerOK s.forcedTimeout t && timerOK s.exitTimeout t &&
  (match e with
   | .openSuccess => !s.opened
   | .openFail => !s.opened
   | .request => true
   | .response => s.count > 0
   | .debounceFire => s.renderTimeout == some t
   | .deadlineFire => s.forcedTimeout == some t
   | .exitFire => s.exitTimeout == some t)

/-- Validity of a timestamped event trace from state `s`, with `now` the
previous instant: timestamps are nondecreasing and every event is legal
when delivered. -/
def validFromB (now : Nat) (s : PhantomState) : List (Nat × PEvent) → Bool
  | [] => true
  | (t, e) :: rest => now ≤ t && legalB s t e && validFromB t (pstep t s e) rest

/-- Run a trace from a state. -/
def runTrace (s : PhantomState) : List (Nat × PEvent) → PhantomState
  | [] => s
  | (t, e) :: rest => runTrace (pstep t s e) rest

/-- Whether an event is one of the three render-or-fail triggers: a debounce
render, a hard-deadline render, or an initial-navigation failure. -/
def isROF : PEvent → Bool
  | .debounceFire => true
  | .deadlineFire => true
  | .openFail => true
  | _ => false

/-- The instants of the render-or-fail events of a trace, in order. -/
def rofTimes (tr : List (Nat × PEvent)) : List Nat :=
  tr.filterMap (fun te => if isROF te.2 then some te.1 else none)

/-- Whether an event invokes `doRender` (a debounce or deadline firing). -/
def isRender : PEvent → Bool
  | .debounceFire => true
  | .deadlineFire => true
  | _ => false

/-- Whether an event is the navigation-failure callback. -/
def isFailEvt : PEvent → Bool
  | .openFail => true
  | _ => false

/-- The number of render (`doRender`-invoking) events of a trace. -/
def renderCount (tr : List (Nat × PEvent)) : Nat :=
  (tr.filter (fun te => isRender te.2)).length

/-- Whether a trace contains an initial-navigation failure. -/
def hasOpenFail (tr : List (Nat × PEvent)) : Bool :=
  tr.any (fun te => isFailEvt te.2)

/-! ## Concrete fixtures -/

/-- A compiled pattern with exactly one capturing group that matches the
single digit run of `"x1y"` — the shape of the spec's `(\d+)` example. -/
def digitRe : Regexp :=
  { numSubexp := 1, findAll := fun s => if s = "x1y" then [["1", "1"]] else [] }

/-- An element whose text and markup are `"x1y"`. -/
def elDigit : Element := { text := "x1y", html := .ok "x1y", attrs := [] }

/-- An element carrying a single `href` attribute. -/
def elHref : Element := { text := "", html := .ok "", attrs := [("href", "x")] }

/-- The identity CSS engine, for concrete engine runs. -/
def findId : Selection → String → Selection := fun s _ => s

/-- A piece extracting the constant `"a"` under the name `"a"`. -/
def pieceA : Piece := ⟨"a", ".", Extract.Const.extract ⟨some (Value.str "a")⟩⟩

/-- A piece extracting the constant `"b"` under the name `"b"`. -/
def pieceB : Piece := ⟨"b", ".", Extract.Const.extract ⟨some (Value.str "b")⟩⟩

/-- A piece named `"o"` whose extractor always signals omission. -/
def pieceO : Piece := ⟨"o", ".", Extract.Const.extract ⟨none⟩⟩

/-! ## Block-map and piece-loop lemmas -/

theorem mapLookup_mapInsert_self (k : String) (v : Value) :
    ∀ m : BlockMap, mapLookup k (mapInsert m k v) = some v
  | [] => by simp [mapInsert, mapLookup]
  | (k', v') :: rest => by
    by_cases h : k' = k
    · simp [mapInsert, mapLookup, h]
    · simp [mapInsert, mapLookup, h, mapLookup_mapInsert_self k v rest]

theorem mapLookup_mapInsert_ne (n k : String) (v : Value) (hne : k ≠ n) :
    ∀ m : BlockMap, mapLookup n (mapInsert m k v) = mapLookup n m
  | [] => by simp [mapInsert, mapLookup, hne]
  | (k', v') :: rest => by
    by_cases h : k' = k
    · subst h; simp [mapInsert, mapLookup, hne]
    · simp [mapInsert, mapLookup, h, mapLookup_mapInsert_ne n k v hne rest]

/-- The piece loop over an appended list runs the first part, then the
second from the accumulated map. -/
theorem processBlockGo_append (find : Selection → String → Selection)
    (block : Selection) (ys : List Piece) :
    ∀ (xs : List Piece) (m : BlockMap),
      processBlockGo find block (xs ++ ys) m =
        match processBlockGo find block xs m with
        | .error e => .error e
        | .ok m' => processBlockGo find block ys m'
  | [], m => by simp [processBlockGo]
  | p :: xs, m => by
    simp only [List.cons_append, processBlockGo]
    cases p.extractor (narrowSel find block p.selector) with
    | error e => rfl
    | ok r =>
      cases r with
      | none => exact processBlockGo_append find block ys xs m
      | some v => exact processBlockGo_append find block ys xs (mapInsert m p.name v)

/-- Pieces whose names all differ from `n` leave the binding of `n`
untouched. -/
theorem processBlockGo_lookup_preserve (find : Selection → String → Selection)
    (block : Selection) (n : String) :
    ∀ (ps : List Piece) (m m' : BlockMap), (∀ q ∈ ps, q.name ≠ n) →
      processBlockGo find block ps m = .ok m' → mapLookup n m' = mapLookup n m
  | [], m, m', _, h => by
    simp only [processBlockGo] at h
    cases h
    rfl
  | p :: ps, m, m', hn, h => by
    have hp : p.name ≠ n := hn p (List.mem_cons_self p ps)
    have hrest : ∀ q ∈ ps, q.name ≠ n := fun q hq => hn q (List.mem_cons_of_mem p hq)
    simp only [processBlockGo] at h
    cases hx : p.extractor (narrowSel find block p.selector) with
    | error e => rw [hx] at h; cases h
    | ok r =>
      rw [hx] at h
      cases r with
      | none => exact processBlockGo_lookup_preserve find block n ps m m' hrest h
      | some v =>
        have ih := processBlockGo_lookup_preserve find block n ps
          (mapInsert m p.name v) m' hrest h
        rw [ih, mapLookup_mapInsert_ne n p.name v hp]

/-- A piece whose extractor signals omission is skipped: the loop behaves as
if the piece were not configured at all. -/
theorem processBlockGo_skip_none (find : Selection → String → Selection)
    (block : Selection) (p : Piece)
    (hx : p.extractor (narrowSel find block p.selector) = .ok none) :
    ∀ (ps1 ps2 : List Piece) (m : BlockMap),
      processBlockGo find block (ps1 ++ p :: ps2) m =
        processBlockGo find block (ps1 ++ ps2) m
  | [], ps2, m => by simp only [List.nil_append, processBlockGo, hx]
  | q :: ps1, ps2, m => by
    simp only [List.cons_append, processBlockGo]
    cases q.extractor (narrowSel find block q.selector) with
    | error e => rfl
    | ok r =>
      cases r with
      | none => exact processBlockGo_skip_none find block p hx ps1 ps2 m
      | some v => exact processBlockGo_skip_none find block p hx ps1 ps2 (mapInsert m q.name v)

/-- A piece whose extractor returns a value ends up bound to that value,
provided no later piece reuses its name. -/
theorem processBlock_lookup_of_some (find : Selection → String → Selection)
    (block : Selection) (ps1 ps2 : List Piece) (p : Piece) (v : Value) (m : BlockMap)
    (hx : p.extractor (narrowSel find block p.selector) = .ok (some v))
    (hn : ∀ q ∈ ps2, q.name ≠ p.name)
    (hm : processBlock find (ps1 ++ p :: ps2) block = .ok m) :
    mapLookup p.name m = some v := by
  rw [processBlock, processBlockGo_append] at hm
  cases h1 : processBlockGo find block ps1 [] with
  | error e => rw [h1] at hm; cases hm
  | ok m1 =>
    rw [h1] at hm
    simp only [processBlockGo, hx] at hm
    have := processBlockGo_lookup_preserve find block p.name ps2
      (mapInsert m1 p.name v) m hn hm
    rw [this, mapLookup_mapInsert_self]

/-! ## Claim C3 — regex single-match collapsing -/

theorem collectAttrs_eq_filterMap (a : String) :
    ∀ sel : Selection, Extract.collectAttrs a sel = sel.filterMap (fun el => el.attrs.lookup a)
  | [] => rfl
  | el :: rest => by
    simp only [Extract.collectAttrs, List.filterMap_cons]
    cases h : el.attrs.lookup a with
    | none => simpa using collectAttrs_eq_filterMap a rest
    | some v => simpa using collectAttrs_eq_filterMap a rest

/-- **C3.** On a regex-capture extraction that collected exactly one string
with `AlwaysReturnList` false, the legacy root-package
`RegexExtractor.Extract` executes `return results[1], nil` on a slice of
length 1 and panics with an index-out-of-range (the embedded `none`)
instead of returning the single string; the `extract`-package
`Regex.Extract` at the same input returns the bare string, and the list
when `AlwaysReturnList` is set, as the claim states. -/
theorem c3_regex_single_collapse :
    RegexExtractor.extract ⟨some digitRe, true, false, false⟩ [elDigit] = none ∧
    Extract.Regex.extract ⟨some digitRe, 0, true, false, false⟩ [elDigit]
      = .ok (some (.str "1")) ∧
    Extract.Regex.extract ⟨some digitRe, 0, true, true, false⟩ [elDigit]
      = .ok (some (.list ["1"])) := by
  refine ⟨by decide, by decide, by decide⟩

/-! ## Claim C6 — attribute-list extraction -/

/-- **C6 counterexample.** The legacy root-package `AttrExtractor` applies no
single-vs-list collapsing: with exactly one collected attribute value it
returns the one-element list, not the bare string the claim requires. -/
theorem c6_legacy_attr_counterexample :
    AttrExtractor.extract ⟨"href", false⟩ [elHref] = .ok (some (.list ["x"])) ∧
    AttrExtractor.extract ⟨"href", false⟩ [elHref] ≠ .ok (some (.str "x")) := by
  refine ⟨by decide, by decide⟩

/-- **C6 (amended).** The `extract`-package `Attr.Extract` reads the named
attribute of each matched element, skipping elements that lack it and
collecting present values in element order (the `filterMap`
characterization), and applies the regex-capture collapsing rules: the
omission signal for zero values with `OmitIfEmpty`, the bare string for
exactly one value with `AlwaysReturnList` false, and the list otherwise.
The legacy root-package `AttrExtractor` instead always returns the list. -/
theorem c6_attr_collapsing (e : Extract.Attr) (sel : Selection) (vals : List String)
    (ha : e.attr ≠ "") (hv : vals = sel.filterMap (fun el => el.attrs.lookup e.attr)) :
    Extract.collectAttrs e.attr sel = vals ∧
    Extract.Attr.extract e sel =
      (if vals.isEmpty && e.omitIfEmpty then Except.ok none
       else if vals.length == 1 && !e.alwaysReturnList then
         Except.ok (some (Value.str (vals.getD 0 "")))
       else Except.ok (some (Value.list vals))) := by
  subst hv
  refine ⟨collectAttrs_eq_filterMap e.attr sel, ?_⟩
  simp only [Extract.Attr.extract, if_neg ha, collectAttrs_eq_filterMap]

theorem c6_attr_collapsing_witness :
    ("href" : String) ≠ "" ∧
    Extract.Attr.extract ⟨"href", false, false⟩ [elHref] = .ok (some (.str "x")) := by
  refine ⟨by decide, ?_⟩
  exact (c6_attr_collapsing ⟨"href", false, false⟩ [elHref] ["x"] (by decide)
    (by decide)).2.trans (by decide)

/-! ## Claim C7 — omission is per-piece, never a short-circuit -/

/-- **C7.** When a piece's extractor returns the omission signal on a block,
the engine adds no entry under that piece's name (the key is absent from
the block's result map, given that no other piece shares the name), and
the remaining pieces execute exactly as if the omitted piece were not
configured — omission never short-circuits the rest of the block. -/
theorem c7_omission_per_piece (find : Selection → String → Selection)
    (block : Selection) (ps1 ps2 : List Piece) (p : Piece)
    (hx : p.extractor (narrowSel find block p.selector) = .ok none)
    (hn : ∀ q ∈ ps1 ++ ps2, q.name ≠ p.name) :
    processBlock find (ps1 ++ p :: ps2) block = processBlock find (ps1 ++ ps2) block ∧
    ∀ m, processBlock find (ps1 ++ p :: ps2) block = .ok m → mapLookup p.name m = none := by
  have hskip := processBlockGo_skip_none find block p hx ps1 ps2 []
  refine ⟨hskip, fun m hm => ?_⟩
  have hm' : processBlockGo find block (ps1 ++ ps2) [] = .ok m := by
    rw [← hskip]; exact hm
  have := processBlockGo_lookup_preserve find block p.name (ps1 ++ ps2) [] m hn hm'
  simpa [mapLookup] using this

theorem c7_omission_per_piece_witness :
    processBlock findId [pieceA, pieceO, pieceB] [] = processBlock findId [pieceA, pieceB] [] ∧
    mapLookup "o" [("a", Value.str "a"), ("b", Value.str "b")] = none := by
  have h := c7_omission_per_piece findId [] [pieceA] [pieceB] pieceO rfl (by decide)
  exact ⟨h.1, h.2 [("a", Value.str "a"), ("b", Value.str "b")] (by decide)⟩

/-! ## Claim C9 — the Constant extractor -/

/-- **C9 counterexample.** `Const` with a `nil` configured value returns that
`nil`, which is precisely the engine's omission signal: the piece's name
is then absent from the block's result map, contradicting the claim that
the constant piece "never produces the omission signal" for every
configured value including `nil`. -/
theorem c9_const_nil_counterexample :
    Extract.Const.extract ⟨none⟩ [] = .ok none ∧
    (processBlock findId [pieceO] []).map (mapLookup "o") = .ok none := by
  refine ⟨rfl, by decide⟩

/-- **C9 (amended).** For every non-`nil` configured value, the `Const`
extractor returns that value with no error on every selection — never the
omission signal — and the piece's name is therefore bound to that value
in every successfully processed block (names being unique after
validation). A `nil` configured value is returned as Go `nil`, which the
engine treats as the omission signal, leaving the name absent. -/
theorem c9_const_always_present (e : Extract.Const) (v : Value) (hv : e.val = some v) :
    (∀ sel, Extract.Const.extract e sel = .ok (some v)) ∧
    (∀ (find : Selection → String → Selection) (pieces : List Piece)
       (block : Selection) (p : Piece) (m : BlockMap),
      p ∈ pieces → p.extractor = Extract.Const.extract e →
      (pieces.map Piece.name).Nodup → processBlock find pieces block = .ok m →
      mapLookup p.name m = some v) := by
  constructor
  · intro sel; simp [Extract.Const.extract, hv]
  · intro find pieces block p m hmem hext hnd hm
    obtain ⟨ps1, ps2, rfl⟩ := List.append_of_mem hmem
    have hx : p.extractor (narrowSel find block p.selector) = .ok (some v) := by
      rw [hext]; simp [Extract.Const.extract, hv]
    have hn2 : ∀ q ∈ ps2, q.name ≠ p.name := by
      intro q hq
      have h1 : (p.name :: ps2.map Piece.name).Nodup := by
        rw [List.map_append, List.map_cons] at hnd
        exact hnd.of_append_right
      have h2 : p.name ∉ ps2.map Piece.name := (List.nodup_cons.mp h1).1
      intro hc
      exact h2 (hc ▸ List.mem_map_of_mem Piece.name hq)
    exact processBlock_lookup_of_some find block ps1 ps2 p v m hx hn2 hm

theorem c9_const_always_present_witness :
    Extract.Const.extract ⟨some (Value.str "a")⟩ [elHref] = .ok (some (.str "a")) ∧
    mapLookup "a" [("a", Value.str "a"), ("b", Value.str "b")] = some (.str "a") := by
  have h := c9_const_always_present ⟨some (Value.str "a")⟩ (Value.str "a") rfl
  refine ⟨h.1 [elHref], ?_⟩
  exact h.2 findId [pieceA, pieceB] [] pieceA [("a", Value.str "a"), ("b", Value.str "b")]
    (List.mem_cons_self _ _) rfl (by decide) (by decide)

/-! ## Claim C5 — construction-time validation -/

theorem validatePieces_ok_iff :
    ∀ (ps : List Piece) (seen : List String) (i : Nat),
      isOkE (validatePieces ps seen i) = true ↔
        ((∀ p ∈ ps, p.name ≠ "" ∧ p.selector ≠ "") ∧
         (ps.map Piece.name).Nodup ∧ ∀ p ∈ ps, p.name ∉ seen)
  | [], seen, i => by simp [validatePieces, isOkE]
  | p :: ps, seen, i => by
    simp only [validatePieces]
    by_cases h1 : p.name = ""
    · simp [h1, isOkE]
    · by_cases h2 : p.name ∈ seen
      · simp only [if_neg h1, if_pos h2, isOkE]
        constructor
        · intro h; cases h
        · rintro ⟨-, -, hs⟩
          exact absurd h2 (hs p (List.mem_cons_self p ps))
      · by_cases h3 : p.selector = ""
        · simp [h1, h2, h3, isOkE]
        · rw [if_neg h1, if_neg h2, if_neg h3,
            validatePieces_ok_iff ps (p.name :: seen) (i + 1)]
          simp only [List.mem_cons, List.map_cons, List.nodup_cons, List.mem_map,
            forall_eq_or_imp, ne_eq, not_exists, not_and, not_or]
          constructor
          · rintro ⟨hall, hnd, hrec⟩
            refine ⟨⟨⟨h1, h3⟩, hall⟩, ⟨?_, hnd⟩, ⟨h2, ?_⟩⟩
            · intro q hq hqe
              exact (hrec q hq).1 hqe
            · intro q hq
              exact (hrec q hq).2
          · rintro ⟨⟨-, hall⟩, ⟨hmap, hnd⟩, ⟨-, hseen⟩⟩
            exact ⟨hall, hnd, fun q hq => ⟨fun hc => hmap q hq hc, hseen q hq⟩⟩

/-- **C5.** `New` succeeds exactly on configs with a non-empty piece list in
which every piece has a non-empty name, names are pairwise distinct, and
every piece has a non-empty selector; in every other case (empty list,
empty name, duplicate name — never silently overwritten — or empty
selector) construction fails with a configuration error and no `Scraper`
is produced. -/
theorem c5_new_validation (find : Selection → String → Selection) (c : ScrapeConfig) :
    isOkE (new find c) = true ↔
      (c.pieces ≠ [] ∧ (∀ p ∈ c.pieces, p.name ≠ "" ∧ p.selector ≠ "") ∧
       (c.pieces.map Piece.name).Nodup) := by
  unfold new
  by_cases h : c.pieces.length = 0
  · rw [if_pos h]
    have : c.pieces = [] := List.length_eq_zero.mp h
    simp [this, isOkE]
  · rw [if_neg h]
    have hne : c.pieces ≠ [] := fun hc => h (by simp [hc])
    cases hv : validatePieces c.pieces [] 0 with
    | error e =>
      have hiff := validatePieces_ok_iff c.pieces [] 0
      rw [hv] at hiff
      simp only [isOkE] at hiff ⊢
      constructor
      · intro hc; cases hc
      · rintro ⟨-, hall, hnd⟩
        exact absurd (hiff.mpr ⟨hall, hnd, by simp⟩) (by simp)
    | ok u =>
      have hiff := validatePieces_ok_iff c.pieces [] 0
      rw [hv] at hiff
      have hall := hiff.mp rfl
      exact ⟨fun _ => ⟨hne, hall.1, hall.2.1⟩, fun _ => rfl⟩

theorem c5_new_validation_witness :
    isOkE (new findId ⟨none, none, [pieceA, pieceB]⟩) = true ∧
    isOkE (new findId ⟨none, none, [pieceA, pieceA]⟩) = false := by
  constructor
  · exact (c5_new_validation findId ⟨none, none, [pieceA, pieceB]⟩).mpr
      ⟨by simp, by decide, by decide⟩
  · have h := (c5_new_validation findId ⟨none, none, [pieceA, pieceA]⟩)
    cases hc : isOkE (new findId ⟨none, none, [pieceA, pieceA]⟩) with
    | false => rfl
    | true =>
      obtain ⟨-, -, hnd⟩ := h.mp hc
      exact absurd hnd (by decide)

/-! ## Scrape-loop lemmas -/

theorem fetchDoc_ok {W : World} {u : String} {d : Selection}
    (h : fetchDoc W u = .ok d) : ∃ b, W.fetch u = .ok b ∧ W.parse b = .ok d := by
  unfold fetchDoc at h
  cases hf : W.fetch u with
  | error e => rw [hf] at h; cases h
  | ok b => rw [hf] at h; exact ⟨b, rfl, h⟩

/-- Unfolding one successful iteration of the page loop. -/
theorem scrapeLoop_step (W : World) (cfg : Config) (fuel : Nat) (url : String)
    (acc : ScrapeResults) (d : Selection) (r : List BlockMap)
    (hu : url ≠ "") (hd : fetchDoc W url = .ok d) (hr : processPage W cfg d = .ok r) :
    scrapeLoop W cfg (fuel + 1) url acc =
      scrapeLoop W cfg fuel (cfg.nextPage d) ⟨acc.urls ++ [url], acc.results ++ [r]⟩ := by
  obtain ⟨b, hf, hp⟩ := fetchDoc_ok hd
  rw [scrapeLoop]
  rw [if_neg hu]
  simp only [hf, hp, hr]

/-- One iteration whose extraction fails returns `(nil, err)` at once. -/
theorem scrapeLoop_step_err (W : World) (cfg : Config) (fuel : Nat) (url : String)
    (acc : ScrapeResults) (d : Selection) (e : GoError)
    (hu : url ≠ "") (hd : fetchDoc W url = .ok d) (hr : processPage W cfg d = .error e) :
    scrapeLoop W cfg (fuel + 1) url acc = some (none, some e) := by
  obtain ⟨b, hf, hp⟩ := fetchDoc_ok hd
  rw [scrapeLoop]
  rw [if_neg hu]
  simp only [hf, hp, hr]

/-- Whenever the loop returns an error, the results pointer is `nil`: no
partially accumulated pages escape. -/
theorem scrapeLoop_no_partial (W : World) (cfg : Config) :
    ∀ (fuel : Nat) (url : String) (acc : ScrapeResults) (r : Option ScrapeResults)
      (e : GoError), scrapeLoop W cfg fuel url acc = some (r, some e) → r = none := by
  intro fuel
  induction fuel with
  | zero =>
    intro url acc r e h
    rw [scrapeLoop] at h
    by_cases hu : url = ""
    · rw [if_pos hu] at h
      simp at h
    · rw [if_neg hu] at h
      cases h
  | succ fuel' ih =>
    intro url acc r e h
    rw [scrapeLoop] at h
    by_cases hu : url = ""
    · rw [if_pos hu] at h
      simp at h
    · rw [if_neg hu] at h
      cases hf : W.fetch url with
      | error e' =>
        simp only [hf, Option.some.injEq, Prod.mk.injEq] at h
        exact h.1.symm
      | ok body =>
        simp only [hf] at h
        cases hp : W.parse body with
        | error e' =>
          simp only [hp, Option.some.injEq, Prod.mk.injEq] at h
          exact h.1.symm
        | ok doc =>
          simp only [hp] at h
          cases hpp : processPage W cfg doc with
          | error e' =>
            simp only [hpp, Option.some.injEq, Prod.mk.injEq] at h
            exact h.1.symm
          | ok pr =>
            simp only [hpp] at h
            exact ih (cfg.nextPage doc) ⟨acc.urls ++ [url], acc.results ++ [pr]⟩ r e h

/-- A successful loop run only ever appends to the accumulated results, and
appends at least one page when it starts from a non-empty URL. -/
theorem scrapeLoop_extends (W : World) (cfg : Config) :
    ∀ (fuel : Nat) (url : String) (acc res : ScrapeResults) (oe : Option GoError),
      scrapeLoop W cfg fuel url acc = some (some res, oe) →
      ∃ t, res.results = acc.results ++ t ∧ (url ≠ "" → t ≠ []) := by
  intro fuel
  induction fuel with
  | zero =>
    intro url acc res oe h
    rw [scrapeLoop] at h
    by_cases hu : url = ""
    · rw [if_pos hu] at h
      simp only [Option.some.injEq, Prod.mk.injEq] at h
      obtain ⟨h1, -⟩ := h
      cases h1
      exact ⟨[], by simp, fun hc => absurd hu hc⟩
    · rw [if_neg hu] at h
      cases h
  | succ fuel' ih =>
    intro url acc res oe h
    rw [scrapeLoop] at h
    by_cases hu : url = ""
    · rw [if_pos hu] at h
      simp only [Option.some.injEq, Prod.mk.injEq] at h
      obtain ⟨h1, -⟩ := h
      cases h1
      exact ⟨[], by simp, fun hc => absurd hu hc⟩
    · rw [if_neg hu] at h
      cases hf : W.fetch url with
      | error e' => simp [hf] at h
      | ok body =>
        simp only [hf] at h
        cases hp : W.parse body with
        | error e' => simp [hp] at h
        | ok doc =>
          simp only [hp] at h
          cases hpp : processPage W cfg doc with
          | error e' => simp [hpp] at h
          | ok pr =>
            simp only [hpp] at h
            obtain ⟨t, ht, -⟩ :=
              ih (cfg.nextPage doc) ⟨acc.urls ++ [url], acc.results ++ [pr]⟩ res oe h
            exact ⟨pr :: t, by simpa using ht, fun _ => by simp⟩

/-- Page extraction over a list of documents succeeds with one result list
per document. -/
theorem pagesResults_ok_length (W : World) (cfg : Config) :
    ∀ (ds : List Selection) (rs : List (List BlockMap)),
      pagesResults W cfg ds = .ok rs → rs.length = ds.length
  | [], rs, h => by
    simp only [pagesResults] at h
    cases h
    rfl
  | d :: ds, rs, h => by
    simp only [pagesResults] at h
    cases hp : processPage W cfg d with
    | error e => rw [hp] at h; cases h
    | ok r =>
      rw [hp] at h
      cases hrest : pagesResults W cfg ds with
      | error e => rw [hrest] at h; cases h
      | ok rs' =>
        rw [hrest] at h
        cases h
        simp [pagesResults_ok_length W cfg ds rs' hrest]

/-- Running the loop down a terminated pagination chain whose pages all
extract successfully appends exactly the chain's URLs and page results. -/
theorem scrapeLoop_chain (W : World) (cfg : Config) :
    ∀ (pages : List (String × Selection)) (url : String) (rs : List (List BlockMap))
      (fuel : Nat) (acc : ScrapeResults),
      okChain W cfg url pages → pagesResults W cfg (pages.map Prod.snd) = .ok rs →
      pages.length ≤ fuel →
      scrapeLoop W cfg fuel url acc =
        some (some ⟨acc.urls ++ pages.map Prod.fst, acc.results ++ rs⟩, none)
  | [], url, rs, fuel, acc, hch, hrs, hfuel => by
    have hu : url = "" := hch
    subst hu
    simp only [pagesResults] at hrs
    cases hrs
    simp [scrapeLoop.eq_def]
  | (v, d) :: pages, url, rs, fuel, acc, hch, hrs, hfuel => by
    obtain ⟨rfl, hv, hd, hrest⟩ := hch
    simp only [List.map_cons, pagesResults] at hrs
    cases hp : processPage W cfg d with
    | error e => rw [hp] at hrs; cases hrs
    | ok r =>
      rw [hp] at hrs
      cases hpr : pagesResults W cfg (pages.map Prod.snd) with
      | error e => rw [hpr] at hrs; cases hrs
      | ok rs' =>
        rw [hpr] at hrs
        cases hrs
        cases fuel with
        | zero => simp at hfuel
        | succ fuel' =>
          rw [scrapeLoop_step W cfg fuel' url acc d r hv hd hp]
          have := scrapeLoop_chain W cfg pages (cfg.nextPage d) rs' fuel'
            ⟨acc.urls ++ [url], acc.results ++ [r]⟩ hrest hpr (by simpa using hfuel)
          rw [this]
          simp

/-- Running the loop down a successfully processed chain prefix and then
hitting a page whose extraction fails yields exactly `(nil, that error)`. -/
theorem scrapeLoop_upto_err (W : World) (cfg : Config) (u' : String) (d : Selection)
    (e : GoError) (hu' : u' ≠ "") (hd : fetchDoc W u' = .ok d)
    (he : processPage W cfg d = .error e) :
    ∀ (pages : List (String × Selection)) (url : String) (fuel : Nat)
      (acc : ScrapeResults),
      okUpto W cfg url pages u' → pages.length < fuel →
      scrapeLoop W cfg fuel url acc = some (none, some e)
  | [], url, fuel, acc, hch, hfuel => by
    have hu : url = u' := hch
    subst hu
    cases fuel with
    | zero => simp at hfuel
    | succ fuel' => exact scrapeLoop_step_err W cfg fuel' url acc d e hu' hd he
  | (v, dv) :: pages, url, fuel, acc, hch, hfuel => by
    obtain ⟨rfl, hv, hdv, hok, hrest⟩ := hch
    cases hp : processPage W cfg dv with
    | error e' => rw [hp] at hok; cases hok
    | ok r =>
      cases fuel with
      | zero => simp at hfuel
      | succ fuel' =>
        rw [scrapeLoop_step W cfg fuel' url acc dv r hv hdv hp]
        exact scrapeLoop_upto_err W cfg u' d e hu' hd he pages (cfg.nextPage dv) fuel'
          ⟨acc.urls ++ [url], acc.results ++ [r]⟩ hrest (by simpa using hfuel)

/-! ## Concrete two-page world fixtures -/

/-- The document served at the first page of the concrete world. -/
def doc1 : Selection := [elDigit]

/-- The document served at the second page of the concrete world. -/
def doc2 : Selection := [elHref]

/-- A two-page world: `"u1"` parses to `doc1`, `"u2"` to `doc2`. -/
def W2 : World :=
  { prepare := .ok ()
    fetch := fun u =>
      if u = "u1" then .ok "b1" else if u = "u2" then .ok "b2"
      else .error (.external "connection refused")
    parse := fun b =>
      if b = "b1" then .ok doc1 else if b = "b2" then .ok doc2
      else .error (.external "parse failure")
    find := findId }

/-- A config paginating `doc1 → "u2" → doc2 → done`, one block per page,
one constant piece. -/
def cfg2 : Config :=
  { nextPage := fun d => if d = doc1 then "u2" else ""
    dividePage := fun d => [d]
    pieces := [pieceA] }

/-- The block map both pages of the concrete world produce. -/
def mA : BlockMap := [("a", Value.str "a")]

/-- A piece whose extractor always fails. -/
def pieceErr : Piece := ⟨"e", ".", fun _ => .error (.external "boom")⟩

/-- A single-page config whose only piece fails. -/
def cfgErr : Config :=
  { nextPage := fun _ => "", dividePage := fun d => [d], pieces := [pieceErr] }

/-! ## Claim C1 — an extraction error aborts the whole scrape -/

/-- **C1.** Whenever `Scrape` returns an error — in particular whenever a
reachable page's extraction fails, which the second conjunct shows is
propagated verbatim — the results pointer is `nil`: no URLs, pages, or
blocks accumulated from earlier pages or earlier blocks are returned. -/
theorem c1_error_aborts (W : World) (cfg : Config) :
    (∀ (fuel : Nat) (url : String) (r : Option ScrapeResults) (e : GoError),
      scrape W cfg fuel url = some (r, some e) → r = none) ∧
    (∀ (pages : List (String × Selection)) (url u' : String) (d : Selection)
       (e : GoError) (fuel : Nat),
      okUpto W cfg url pages u' → u' ≠ "" → fetchDoc W u' = .ok d →
      processPage W cfg d = .error e → W.prepare = .ok () → pages.length < fuel →
      scrape W cfg fuel url = some (none, some e)) := by
  constructor
  · intro fuel url r e h
    unfold scrape at h
    by_cases hu : url = ""
    · rw [if_pos hu] at h
      simp only [Option.some.injEq, Prod.mk.injEq] at h
      exact h.1.symm
    · rw [if_neg hu] at h
      cases hpr : W.prepare with
      | error e' =>
        simp only [hpr, Option.some.injEq, Prod.mk.injEq] at h
        exact h.1.symm
      | ok u =>
        simp only [hpr] at h
        exact scrapeLoop_no_partial W cfg fuel url ⟨[], []⟩ r e h
  · intro pages url u' d e fuel hch hu' hd he hprep hfuel
    have hu : url ≠ "" := by
      cases pages with
      | nil =>
        have huu : url = u' := hch
        exact huu ▸ hu'
      | cons p rest =>
        obtain ⟨v, dv⟩ := p
        obtain ⟨rfl, hv, -, -, -⟩ := hch
        exact hv
    unfold scrape
    rw [if_neg hu]
    simp only [hprep]
    exact scrapeLoop_upto_err W cfg u' d e hu' hd he pages url fuel ⟨[], []⟩ hch hfuel

theorem c1_error_aborts_witness :
    scrape W2 cfgErr 1 "u1" = some (none, some (.external "boom")) := by
  exact (c1_error_aborts W2 cfgErr).2 [] "u1" "u1" doc1 (.external "boom") 1 rfl
    (by decide) (by decide) (by decide) rfl (by decide)

/-! ## Claim C2 — N pages yield N URLs and N result pages in order -/

/-- **C2.** For a pagination chain of N pages — `NextPage` returning the next
non-empty URL N-1 times and the empty string on the last document — whose
pages all extract without error, `Scrape` returns exactly the N visited
URLs in visitation order together with the N per-page result lists in the
same order: `URLs` and `Results` are parallel, equal-length sequences. -/
theorem c2_n_pages (W : World) (cfg : Config) (pages : List (String × Selection))
    (url : String) (rs : List (List BlockMap)) (fuel : Nat)
    (hch : okChain W cfg url pages) (hne : pages ≠ [])
    (hrs : pagesResults W cfg (pages.map Prod.snd) = .ok rs)
    (hprep : W.prepare = .ok ()) (hfuel : pages.length ≤ fuel) :
    scrape W cfg fuel url = some (some ⟨pages.map Prod.fst, rs⟩, none) ∧
    (pages.map Prod.fst).length = pages.length ∧ rs.length = pages.length := by
  have hu : url ≠ "" := by
    cases pages with
    | nil => exact absurd rfl hne
    | cons p rest =>
      obtain ⟨v, dv⟩ := p
      obtain ⟨rfl, hv, -, -⟩ := hch
      exact hv
  refine ⟨?_, by simp, ?_⟩
  · unfold scrape
    rw [if_neg hu]
    simp only [hprep]
    have := scrapeLoop_chain W cfg pages url rs fuel ⟨[], []⟩ hch hrs hfuel
    simpa using this
  · exact pagesResults_ok_length W cfg (pages.map Prod.snd) rs hrs |>.trans (by simp)

theorem c2_n_pages_witness :
    scrape W2 cfg2 2 "u1" = some (some ⟨["u1", "u2"], [[mA], [mA]]⟩, none) := by
  have h := c2_n_pages W2 cfg2 [("u1", doc1), ("u2", doc2)] "u1" [[mA], [mA]] 2
    ⟨rfl, by decide, by decide, by decide, by decide, by decide,
      show cfg2.nextPage doc2 = "" by decide⟩
    (by simp) (by decide) rfl (by decide)
  exact h.1

/-! ## Claim C10 — `First` is partial on empty results -/

/-- **C10.** `ScrapeResults.First` indexes `Results[0]` unguarded: on an
empty `Results` sequence it panics (the embedded `none`); when the first
page exists, it returns `nil` exactly when that page has zero blocks and
the first block's mapping otherwise.  A successful `Scrape` never returns
an empty `Results` sequence, so the panic is unreachable through `Scrape`. -/
theorem c10_first_totality :
    (∀ r : ScrapeResults, r.results = [] → r.first = none) ∧
    (∀ (r : ScrapeResults) (page : List BlockMap) (rest : List (List BlockMap)),
      r.results = page :: rest →
      r.first = match page with | [] => some none | b :: _ => some (some b)) ∧
    (∀ (W : World) (cfg : Config) (fuel : Nat) (url : String) (res : ScrapeResults)
       (oe : Option GoError),
      scrape W cfg fuel url = some (some res, oe) → res.first ≠ none) := by
  refine ⟨?_, ?_, ?_⟩
  · intro r h
    simp [ScrapeResults.first, h]
  · intro r page rest h
    simp [ScrapeResults.first, h]
  · intro W cfg fuel url res oe h
    unfold scrape at h
    by_cases hu : url = ""
    · rw [if_pos hu] at h
      simp at h
    · rw [if_neg hu] at h
      cases hpr : W.prepare with
      | error e => simp [hpr] at h
      | ok u =>
        simp only [hpr] at h
        obtain ⟨t, ht, hne⟩ := scrapeLoop_extends W cfg fuel url ⟨[], []⟩ res oe h
        have hres : res.results ≠ [] := by
          rw [ht]
          simpa using hne hu
        unfold ScrapeResults.first
        cases hr : res.results with
        | nil => exact absurd hr hres
        | cons page rest => cases page <;> simp

theorem c10_first_totality_witness :
    (ScrapeResults.mk [] []).first = none ∧
    (ScrapeResults.mk ["u"] [[]]).first = some none ∧
    (ScrapeResults.mk ["u1", "u2"] [[mA], [mA]]).first ≠ none := by
  have h := c10_first_totality
  exact ⟨h.1 ⟨[], []⟩ rfl, h.2.1 ⟨["u"], [[]]⟩ [] [] rfl,
    h.2.2 W2 cfg2 2 "u1" ⟨["u1", "u2"], [[mA], [mA]]⟩ none (by decide)⟩

/-! ## Claim C8 — regex-capture configuration errors -/

/-- Whether an extraction outcome is one of the three configuration errors of
`extract.Regex.Extract`: missing pattern, zero capturing groups, or more
than one group without a designated index. -/
def isRegexConfigError : Except GoError (Option Value) → Bool
  | .error .noRegex => true
  | .error .noSubexpressions => true
  | .error (.tooManySubexpressions _) => true
  | _ => false

/-- Errors escaping the collection loop come from the external HTML
serializer, never from configuration checking. -/
theorem regexCollect_error_external (re : Regexp) (subexp : Nat) (onlyText : Bool) :
    ∀ (sel : Selection) (e : GoError),
      Extract.regexCollect re subexp onlyText sel = .error e → ∃ m, e = .external m
  | [], e, h => by simp [Extract.regexCollect] at h
  | el :: rest, e, h => by
    simp only [Extract.regexCollect] at h
    cases hc : (if onlyText then Except.ok el.text else el.html.mapError GoError.external) with
    | error e' =>
      simp only [hc] at h
      cases h
      by_cases ht : onlyText
      · rw [if_pos ht] at hc
        cases hc
      · rw [if_neg ht] at hc
        cases hh : el.html with
        | error m =>
          rw [hh] at hc
          simp only [Except.mapError] at hc
          cases hc
          exact ⟨m, rfl⟩
        | ok s =>
          rw [hh] at hc
          simp [Except.mapError] at hc
    | ok contents =>
      simp only [hc] at h
      cases hr : Extract.regexCollect re subexp onlyText rest with
      | error e2 =>
        simp only [hr] at h
        cases h
        exact regexCollect_error_external re subexp onlyText rest _ hr
      | ok more =>
        simp only [hr] at h
        cases h

/-- A successfully designated subexpression rules out every configuration
error: the remaining failure mode is only an external serializer error. -/
theorem regex_extract_no_config_err (e : Extract.Regex) (re : Regexp) (sel : Selection)
    (subexp : Nat) (hre : e.regex = some re) (h0 : ¬re.numSubexp = 0)
    (hres : Extract.Regex.resolveSubexp e re = .ok subexp) :
    isRegexConfigError (Extract.Regex.extract e sel) = false := by
  simp only [Extract.Regex.extract, hre, if_neg h0, hres]
  cases hc : Extract.regexCollect re subexp e.onlyText sel with
  | error err =>
    obtain ⟨m, rfl⟩ := regexCollect_error_external re subexp e.onlyText sel err hc
    simp [isRegexConfigError]
  | ok results =>
    simp only [hc]
    split
    · rfl
    · split
      · rfl
      · rfl

/-- **C8.** A regex-capture extraction fails with a configuration error
exactly when no pattern was supplied, the pattern has zero capturing
groups, or it has more than one group while no explicit subexpression
index was designated; with exactly one group and no explicit index, the
sole group (index 1) is used by default and no configuration error
occurs. -/
theorem c8_regex_config_errors (e : Extract.Regex) (sel : Selection) :
    (isRegexConfigError (Extract.Regex.extract e sel) = true ↔
      (e.regex = none ∨
        ∃ re, e.regex = some re ∧
          (re.numSubexp = 0 ∨ (e.subexpression = 0 ∧ re.numSubexp ≠ 1)))) ∧
    (∀ re, e.regex = some re → re.numSubexp = 1 → e.subexpression = 0 →
      Extract.Regex.resolveSubexp e re = .ok 1 ∧
      isRegexConfigError (Extract.Regex.extract e sel) = false) := by
  constructor
  · cases hre : e.regex with
    | none =>
      have hx : Extract.Regex.extract e sel = .error .noRegex := by
        simp [Extract.Regex.extract, hre]
      rw [hx]
      exact iff_of_true rfl (Or.inl rfl)
    | some re =>
      by_cases h0 : re.numSubexp = 0
      · have hx : Extract.Regex.extract e sel = .error .noSubexpressions := by
          simp [Extract.Regex.extract, hre, h0]
        rw [hx]
        exact iff_of_true rfl (Or.inr ⟨re, rfl, Or.inl h0⟩)
      · by_cases hs : e.subexpression = 0
        · by_cases h1 : re.numSubexp = 1
          · have hres : Extract.Regex.resolveSubexp e re = .ok 1 := by
              simp [Extract.Regex.resolveSubexp, hs, h1]
            rw [regex_extract_no_config_err e re sel 1 hre h0 hres]
            refine iff_of_false (by simp) ?_
            rintro (hnone | ⟨re', hre', hcase⟩)
            · exact Option.noConfusion hnone
            · injection hre' with he
              subst he
              rcases hcase with hz | ⟨-, hne1⟩
              · exact h0 hz
              · exact hne1 h1
          · have hx : Extract.Regex.extract e sel
                = .error (.tooManySubexpressions re.numSubexp) := by
              simp [Extract.Regex.extract, Extract.Regex.resolveSubexp, hre, h0, hs, h1]
            rw [hx]
            exact iff_of_true rfl (Or.inr ⟨re, rfl, Or.inr ⟨hs, h1⟩⟩)
        · have hres : Extract.Regex.resolveSubexp e re = .ok e.subexpression := by
            simp [Extract.Regex.resolveSubexp, hs]
          rw [regex_extract_no_config_err e re sel e.subexpression hre h0 hres]
          refine iff_of_false (by simp) ?_
          rintro (hnone | ⟨re', hre', hcase⟩)
          · exact Option.noConfusion hnone
          · injection hre' with he
            subst he
            rcases hcase with hz | ⟨hs', -⟩
            · exact h0 hz
            · exact hs hs'
  · intro re hre h1 hs
    have hres : Extract.Regex.resolveSubexp e re = .ok 1 := by
      simp [Extract.Regex.resolveSubexp, hs, h1]
    exact ⟨hres, regex_extract_no_config_err e re sel 1 hre (by simp [h1]) hres⟩

theorem c8_regex_config_errors_witness :
    isRegexConfigError (Extract.Regex.extract ⟨none, 0, true, false, false⟩ [elDigit]) = true ∧
    Extract.Regex.resolveSubexp ⟨some digitRe, 0, true, false, false⟩ digitRe = .ok 1 ∧
    isRegexConfigError
      (Extract.Regex.extract ⟨some digitRe, 0, true, false, false⟩ [elDigit]) = false := by
  refine ⟨?_, ?_, ?_⟩
  · exact (c8_regex_config_errors ⟨none, 0, true, false, false⟩ [elDigit]).1.mpr (Or.inl rfl)
  · exact ((c8_regex_config_errors ⟨some digitRe, 0, true, false, false⟩ [elDigit]).2
      digitRe rfl rfl rfl).1
  · exact ((c8_regex_config_errors ⟨some digitRe, 0, true, false, false⟩ [elDigit]).2
      digitRe rfl rfl rfl).2

/-! ## Quiescence-machine lemmas -/

/-- The debounce-timer invariant: the timer is armed only while the in-flight
counter is zero. -/
def quiesInv (s : PhantomState) : Prop :=
  ∀ x, s.renderTimeout = some x → s.count = 0

theorem quiesInv_init : quiesInv initState := by
  intro x hx
  cases hx

theorem legalB_not_exited {s : PhantomState} {t : Nat} {e : PEvent}
    (h : legalB s t e = true) : s.exited = false := by
  simp only [legalB, Bool.and_eq_true, Bool.not_eq_true'] at h
  exact h.1.1.1.1

theorem legalB_exit_le {s : PhantomState} {t : Nat} {e : PEvent} {x : Nat}
    (h : legalB s t e = true) (hx : s.exitTimeout = some x) : t ≤ x := by
  simp only [legalB, Bool.and_eq_true] at h
  have := h.1.2
  rw [hx] at this
  simpa [timerOK] using this

theorem quiesInv_step {s : PhantomState} {t : Nat} {e : PEvent}
    (hinv : quiesInv s) (hl : legalB s t e = true) : quiesInv (pstep t s e) := by
  cases e with
  | openSuccess => intro x hx; exact hinv x hx
  | openFail => intro x hx; exact hinv x hx
  | request => intro x hx; cases hx
  | response =>
    have hc : 0 < s.count := by
      simp only [legalB, Bool.and_eq_true] at hl
      simpa [decide_eq_true_eq] using hl.2
    intro x hx
    simp only [pstep] at hx ⊢
    by_cases hz : s.count - 1 = 0
    · simp [hz]
    · rw [if_neg hz] at hx ⊢
      exact absurd (hinv x hx) (by omega)
  | debounceFire => intro x hx; cases hx
  | deadlineFire => intro x hx; exact hinv x hx
  | exitFire => intro x hx; exact hinv x hx

/-- Along a valid trace the debounce timer can only fire while the counter is
zero: the state right before any `debounceFire` event has `count = 0`. -/
theorem count_zero_at_debounce :
    ∀ (pre : List (Nat × PEvent)) (s : PhantomState) (now t : Nat)
      (post : List (Nat × PEvent)), quiesInv s →
      validFromB now s (pre ++ (t, PEvent.debounceFire) :: post) = true →
      (runTrace s pre).count = 0
  | [], s, now, t, post, hinv, hv => by
    simp only [List.nil_append, validFromB, Bool.and_eq_true] at hv
    have hl := hv.1.2
    have harm : s.renderTimeout = some t := by
      simp only [legalB, Bool.and_eq_true] at hl
      simpa using hl.2
    exact hinv t harm
  | (t', e') :: pre, s, now, t, post, hinv, hv => by
    simp only [List.cons_append, validFromB, Bool.and_eq_true] at hv
    exact count_zero_at_debounce pre (pstep t' s e') t' t post
      (quiesInv_step hinv hv.1.2) hv.2

/-- Emission accounting: running a trace adds one JSON emission per render
event (debounce fire or deadline fire). -/
theorem runTrace_emitted :
    ∀ (tr : List (Nat × PEvent)) (s : PhantomState),
      (runTrace s tr).emitted = s.emitted + renderCount tr
  | [], s => by simp [runTrace, renderCount]
  | (t, e) :: tr, s => by
    rw [runTrace, runTrace_emitted tr (pstep t s e)]
    cases e
    case response =>
      by_cases hz : s.count - 1 = 0 <;>
        simp [pstep, renderCount, isRender, List.filter_cons, hz]
    all_goals simp [pstep, doRender, renderCount, isRender, List.filter_cons]
    all_goals omega

/-- The render-or-fail events split into render events and navigation
failures. -/
theorem rofTimes_length_split :
    ∀ tr : List (Nat × PEvent),
      (rofTimes tr).length =
        renderCount tr + (tr.filter (fun te => isFailEvt te.2)).length
  | [] => by simp [rofTimes, renderCount]
  | (t, e) :: tr => by
    have ih := rofTimes_length_split tr
    cases e <;>
      simp [rofTimes, renderCount, isRender, isFailEvt, List.filter_cons, isROF,
        List.filterMap_cons] at ih ⊢ <;> omega

theorem hasOpenFail_false_filter {tr : List (Nat × PEvent)}
    (h : hasOpenFail tr = false) :
    (tr.filter (fun te => isFailEvt te.2)).length = 0 := by
  simp only [hasOpenFail, List.any_eq_false] at h
  simp only [List.length_eq_zero, List.filter_eq_nil_iff]
  exact h

theorem hasOpenFail_true_filter {tr : List (Nat × PEvent)}
    (h : hasOpenFail tr = true) :
    1 ≤ (tr.filter (fun te => isFailEvt te.2)).length := by
  simp only [hasOpenFail, List.any_eq_true] at h
  obtain ⟨te, hmem, hte⟩ := h
  have : te ∈ tr.filter (fun te => isFailEvt te.2) :=
    List.mem_filter.mpr ⟨hmem, hte⟩
  exact List.length_pos.mpr (fun hnil => by simp [hnil] at this)

/-- Once the process has exited, a valid trace is over. -/
theorem valid_exited_nil :
    ∀ (tr : List (Nat × PEvent)) (now : Nat) (s : PhantomState),
      s.exited = true → validFromB now s tr = true → tr = []
  | [], _, _, _, _ => rfl
  | (t, e) :: tr, now, s, hex, hv => by
    simp only [validFromB, Bool.and_eq_true] at hv
    have := legalB_not_exited hv.1.2
    rw [hex] at this
    cases this

/-- From any state whose exit timer is armed at the current instant, every
further event of a valid trace happens at exactly that instant. -/
theorem afterExit_times :
    ∀ (tr : List (Nat × PEvent)) (s : PhantomState) (t0 : Nat),
      validFromB t0 s tr = true → s.exitTimeout = some t0 →
      ∀ te ∈ tr, te.1 = t0
  | [], _, _, _, _ => by intro te h; cases h
  | (t, e) :: tr, s, t0, hv, hx => by
    simp only [validFromB, Bool.and_eq_true] at hv
    obtain ⟨⟨hle, hl⟩, hrest⟩ := hv
    have hle' : t ≤ t0 := legalB_exit_le hl hx
    have ht : t = t0 := Nat.le_antisymm hle' (by simpa [decide_eq_true_eq] using hle)
    subst ht
    intro te hte
    rcases List.mem_cons.mp hte with rfl | hmem
    · rfl
    · cases e with
      | exitFire =>
        have hx' : (pstep t s PEvent.exitFire).exited = true := rfl
        have := valid_exited_nil tr t (pstep t s PEvent.exitFire) hx' hrest
        rw [this] at hmem
        cases hmem
      | openSuccess =>
        exact afterExit_times tr _ t hrest (by simpa [pstep] using hx) te hmem
      | openFail =>
        exact afterExit_times tr _ t hrest (by simp [pstep]) te hmem
      | request =>
        exact afterExit_times tr _ t hrest (by simpa [pstep] using hx) te hmem
      | response =>
        refine afterExit_times tr _ t hrest ?_ te hmem
        simp only [pstep]
        by_cases hz : s.count - 1 = 0
        · simpa [hz] using hx
        · simpa [hz] using hx
      | debounceFire =>
        exact afterExit_times tr _ t hrest (by simp [pstep, doRender]) te hmem
      | deadlineFire =>
        exact afterExit_times tr _ t hrest (by simp [pstep, doRender]) te hmem

theorem rofTimes_mem {tr : List (Nat × PEvent)} {x : Nat} (h : x ∈ rofTimes tr) :
    ∃ ev, (x, ev) ∈ tr ∧ isROF ev = true := by
  simp only [rofTimes, List.mem_filterMap] at h
  obtain ⟨te, hmem, hf⟩ := h
  by_cases hr : isROF te.2
  · rw [if_pos hr] at hf
    injection hf with hx
    refine ⟨te.2, ?_, hr⟩
    rw [← hx, Prod.mk.eta]
    exact hmem
  · rw [if_neg hr] at hf
    cases hf

/-- A complete fetch (the process exits) contains at least one render-or-fail
event: only `phantomExit` — called from `doRender` or on navigation
failure — ever schedules the exit. -/
theorem exited_needs_rof :
    ∀ (tr : List (Nat × PEvent)) (now : Nat) (s : PhantomState),
      validFromB now s tr = true → s.exitTimeout = none → s.exited = false →
      (runTrace s tr).exited = true → 1 ≤ (rofTimes tr).length
  | [], now, s, _, _, hex, hrun => by
    rw [runTrace] at hrun
    rw [hex] at hrun
    cases hrun
  | (t, e) :: tr, now, s, hv, hx, hex, hrun => by
    simp only [validFromB, Bool.and_eq_true] at hv
    obtain ⟨⟨-, hl⟩, hrest⟩ := hv
    rw [runTrace] at hrun
    cases e with
    | openFail => simp [rofTimes, isROF, List.filterMap_cons]
    | debounceFire => simp [rofTimes, isROF, List.filterMap_cons]
    | deadlineFire => simp [rofTimes, isROF, List.filterMap_cons]
    | exitFire =>
      exfalso
      simp only [legalB, Bool.and_eq_true] at hl
      have := hl.2
      rw [hx] at this
      simp at this
    | openSuccess =>
      have h1 : (pstep t s .openSuccess).exitTimeout = none := by simpa [pstep] using hx
      have h2 : (pstep t s .openSuccess).exited = false := by simpa [pstep] using hex
      have := exited_needs_rof tr t (pstep t s .openSuccess) hrest h1 h2 hrun
      simpa [rofTimes, isROF, List.filterMap_cons] using this
    | request =>
      have h1 : (pstep t s .request).exitTimeout = none := by simpa [pstep] using hx
      have h2 : (pstep t s .request).exited = false := by simpa [pstep] using hex
      have := exited_needs_rof tr t (pstep t s .request) hrest h1 h2 hrun
      simpa [rofTimes, isROF, List.filterMap_cons] using this
    | response =>
      have h1 : (pstep t s .response).exitTimeout = none := by
        simp only [pstep]
        split <;> simpa using hx
      have h2 : (pstep t s .response).exited = false := by
        simp only [pstep]
        split <;> simpa using hex
      have := exited_needs_rof tr t (pstep t s .response) hrest h1 h2 hrun
      simpa [rofTimes, isROF, List.filterMap_cons] using this

theorem rofTimes_cons_rof {t : Nat} {e : PEvent} {tr : List (Nat × PEvent)}
    (h : isROF e = true) : rofTimes ((t, e) :: tr) = t :: rofTimes tr := by
  simp [rofTimes, List.filterMap_cons, h]

/-- At most one render-or-fail event occurs in a valid trace whose
render-or-fail instants are pairwise distinct: the first such event arms
the zero-delay exit timer at its own instant, which pins every later
event to that same instant. -/
theorem rof_le_one :
    ∀ (tr : List (Nat × PEvent)) (now : Nat) (s : PhantomState),
      validFromB now s tr = true → s.exitTimeout = none → (rofTimes tr).Nodup →
      (rofTimes tr).length ≤ 1
  | [], _, _, _, _, _ => by simp [rofTimes]
  | (t, e) :: tr, now, s, hv, hx, hnd => by
    simp only [validFromB, Bool.and_eq_true] at hv
    obtain ⟨⟨-, hl⟩, hrest⟩ := hv
    cases e with
    | openSuccess =>
      have h1 : (pstep t s .openSuccess).exitTimeout = none := by simpa [pstep] using hx
      have hnd' : (rofTimes tr).Nodup := by
        simpa [rofTimes, isROF, List.filterMap_cons] using hnd
      have := rof_le_one tr t _ hrest h1 hnd'
      simpa [rofTimes, isROF, List.filterMap_cons] using this
    | request =>
      have h1 : (pstep t s .request).exitTimeout = none := by simpa [pstep] using hx
      have hnd' : (rofTimes tr).Nodup := by
        simpa [rofTimes, isROF, List.filterMap_cons] using hnd
      have := rof_le_one tr t _ hrest h1 hnd'
      simpa [rofTimes, isROF, List.filterMap_cons] using this
    | response =>
      have h1 : (pstep t s .response).exitTimeout = none := by
        simp only [pstep]
        split <;> simpa using hx
      have hnd' : (rofTimes tr).Nodup := by
        simpa [rofTimes, isROF, List.filterMap_cons] using hnd
      have := rof_le_one tr t _ hrest h1 hnd'
      simpa [rofTimes, isROF, List.filterMap_cons] using this
    | exitFire =>
      exfalso
      simp only [legalB, Bool.and_eq_true] at hl
      have := hl.2
      rw [hx] at this
      simp at this
    | openFail =>
      have hx' : (pstep t s .openFail).exitTimeout = some t := by
        simp [pstep]
      have htimes := afterExit_times tr (pstep t s .openFail) t hrest hx'
      rw [rofTimes_cons_rof (show isROF PEvent.openFail = true from rfl)] at hnd ⊢
      have hnotin : t ∉ rofTimes tr := (List.nodup_cons.mp hnd).1
      have hempty : rofTimes tr = [] := by
        by_contra hne
        obtain ⟨x, hxm⟩ := List.exists_mem_of_ne_nil _ hne
        obtain ⟨ev, hmem, -⟩ := rofTimes_mem hxm
        have hxt : x = t := htimes (x, ev) hmem
        exact hnotin (hxt ▸ hxm)
      rw [hempty]
      simp
    | debounceFire =>
      have hx' : (pstep t s .debounceFire).exitTimeout = some t := by
        simp [pstep, doRender]
      have htimes := afterExit_times tr (pstep t s .debounceFire) t hrest hx'
      rw [rofTimes_cons_rof (show isROF PEvent.debounceFire = true from rfl)] at hnd ⊢
      have hnotin : t ∉ rofTimes tr := (List.nodup_cons.mp hnd).1
      have hempty : rofTimes tr = [] := by
        by_contra hne
        obtain ⟨x, hxm⟩ := List.exists_mem_of_ne_nil _ hne
        obtain ⟨ev, hmem, -⟩ := rofTimes_mem hxm
        have hxt : x = t := htimes (x, ev) hmem
        exact hnotin (hxt ▸ hxm)
      rw [hempty]
      simp
    | deadlineFire =>
      have hx' : (pstep t s .deadlineFire).exitTimeout = some t := by
        simp [pstep, doRender]
      have htimes := afterExit_times tr (pstep t s .deadlineFire) t hrest hx'
      rw [rofTimes_cons_rof (show isROF PEvent.deadlineFire = true from rfl)] at hnd ⊢
      have hnotin : t ∉ rofTimes tr := (List.nodup_cons.mp hnd).1
      have hempty : rofTimes tr = [] := by
        by_contra hne
        obtain ⟨x, hxm⟩ := List.exists_mem_of_ne_nil _ hne
        obtain ⟨ev, hmem, -⟩ := rofTimes_mem hxm
        have hxt : x = t := htimes (x, ev) hmem
        exact hnotin (hxt ▸ hxm)
      rw [hempty]
      simp

/-- The debounce timer is re-armed only by a completed response that returns
the in-flight counter to zero. -/
theorem debounce_rearm (s : PhantomState) (t : Nat) (e : PEvent) (x : Nat)
    (hnew : (pstep t s e).renderTimeout = some x) (hold : s.renderTimeout ≠ some x) :
    e = PEvent.response ∧ (pstep t s e).count = 0 := by
  cases e with
  | response =>
    refine ⟨rfl, ?_⟩
    simp only [pstep] at hnew ⊢
    by_cases hz : s.count - 1 = 0
    · simp [hz]
    · rw [if_neg hz] at hnew ⊢
      exact absurd hnew hold
  | openSuccess => exact absurd (by simpa [pstep] using hnew) hold
  | openFail => exact absurd (by simpa [pstep] using hnew) hold
  | request => simp [pstep] at hnew
  | debounceFire => simp [pstep, doRender] at hnew
  | deadlineFire => exact absurd (by simpa [pstep, doRender] using hnew) hold
  | exitFire => exact absurd (by simpa [pstep] using hnew) hold

/-! ## Claim C4 — the quiescence render protocol -/

/-- A fetch whose initial navigation fails: `page.open` reports failure and
the process exits without writing anything to standard output. -/
def trFail : List (Nat × PEvent) := [(0, .openFail), (0, .exitFire)]

/-- A quiescent fetch: one resource request, its response at t=50 returning
the counter to zero, the debounce firing at t=350, then exit. -/
def trOk : List (Nat × PEvent) :=
  [(0, .request), (0, .openSuccess), (50, .response), (350, .debounceFire), (350, .exitFire)]

/-- **C4 counterexample.** A valid, complete fetch trace whose single
render-or-fail event is the initial-navigation failure emits zero JSON
objects on standard output, not one: the failing branch calls
`phantomExit(1)` without `doRender`, so the claim's "exactly one JSON
object is then emitted" does not hold for the navigation-failure arm. -/
theorem c4_navfail_counterexample :
    validFromB 0 initState trFail = true ∧
    (runTrace initState trFail).exited = true ∧
    (rofTimes trFail).length = 1 ∧
    (runTrace initState trFail).emitted = 0 := by
  refine ⟨by decide, by decide, by decide, by decide⟩

/-- **C4 (amended).** For every valid, complete fetch trace of the
quiescence subprocess whose render-or-fail events occur at pairwise
distinct instants: exactly one render-or-fail event occurs (a debounce
firing — necessarily while the in-flight counter is zero — a hard-deadline
firing, or an initial-navigation failure); exactly one JSON object is
emitted before exit in the two render cases and none on navigation
failure; a resource request always cancels a pending debounce render; and
the debounce timer is re-armed only by a completed response that returns
the counter to zero.  (At an exact tie of the debounce and deadline
expiries both render paths run and two JSON objects are emitted, which is
why the distinct-instants proviso is needed.) -/
theorem c4_quiescence_protocol (tr : List (Nat × PEvent))
    (hv : validFromB 0 initState tr = true)
    (hex : (runTrace initState tr).exited = true)
    (hsep : (rofTimes tr).Nodup) :
    (rofTimes tr).length = 1 ∧
    (hasOpenFail tr = false → (runTrace initState tr).emitted = 1) ∧
    (hasOpenFail tr = true → (runTrace initState tr).emitted = 0) ∧
    (∀ (pre post : List (Nat × PEvent)) (t : Nat),
      tr = pre ++ (t, PEvent.debounceFire) :: post →
      (runTrace initState pre).count = 0) ∧
    (∀ (s : PhantomState) (t : Nat), (pstep t s PEvent.request).renderTimeout = none) ∧
    (∀ (s : PhantomState) (t : Nat) (e : PEvent) (x : Nat),
      (pstep t s e).renderTimeout = some x → s.renderTimeout ≠ some x →
      e = PEvent.response ∧ (pstep t s e).count = 0) := by
  have hone : (rofTimes tr).length = 1 :=
    Nat.le_antisymm (rof_le_one tr 0 initState hv rfl hsep)
      (exited_needs_rof tr 0 initState hv rfl rfl hex)
  have hemit := runTrace_emitted tr initState
  have hsplit := rofTimes_length_split tr
  have hinit : initState.emitted = 0 := rfl
  refine ⟨hone, ?_, ?_, ?_, fun s t => rfl, fun s t e x => debounce_rearm s t e x⟩
  · intro hof
    have hzero := hasOpenFail_false_filter hof
    omega
  · intro hof
    have hpos := hasOpenFail_true_filter hof
    omega
  · intro pre post t htr
    subst htr
    exact count_zero_at_debounce pre initState 0 t post quiesInv_init hv

theorem c4_quiescence_protocol_witness :
    (rofTimes trOk).length = 1 ∧ (runTrace initState trOk).emitted = 1 := by
  have h := c4_quiescence_protocol trOk (by decide) (by decide) (by decide)
  exact ⟨h.1, h.2.1 (by decide)⟩
